import Mathlib

/-!
Verification of the selection / resume engine of `BiliSpeech2Text`
(`src/main.py`, class `BiliDown2Text`).

The development shallowly embeds:
  * the episode / collection data model (`videoData.ugc_season.sections`),
  * the progress ledger (`_load_progress` / `_save_progress`,
    file `bilibili_video/progress_<collection_id>.json`),
  * the interactive selection logic `process_collection` (choices
    `'1'` = whole collection, `'2'` = by index / BV id, `'3'` = by range),
  * the per-episode driver loop of `process_video`.

Conventions of the embedding:
  * Python's missing optional fields are encoded by their defaults from the
    source (`episode.get('bvid', '')` becomes an empty string, etc.).
  * The filesystem is a map from paths to a `FileState`; a ledger file is
    `missing`, readable as a JSON array of strings (`good`), or present but
    unreadable / unparseable (`bad`).  JSON (de)serialisation of a string
    array is treated as the identity on the array.
  * Python `set` values are lists with membership semantics; `set.add` is
    append-if-absent.
  * Console output that carries decision information (the skip notices and
    the two error reports of `process_collection`) is modelled as a list of
    message strings; pure display output (banner, episode listing, prompts)
    is not modelled.
  * All functions are total, which reflects that the modelled code paths
    catch their exceptions (`except` blocks at lines 90, 100, 228 of
    `src/main.py`).
-/

/-- One episode record of `ugc_season.sections[*].episodes[*]`.
Missing fields carry the defaults used by the source
(`episode.get('title', '未知标题')` is materialised in the `title` field,
`episode.get('long_title', '')` and `episode.get('bvid', '')` default to
the empty string). -/
structure Episode where
  title : String
  long_title : String
  bvid : String
  aid : Option Int
deriving Repr, DecidableEq

/-- One element of `ugc_season.sections`. -/
structure Sec where
  title : String
  episodes : List Episode
deriving Repr, DecidableEq

/-- The part of the scraped `__INITIAL_STATE__` blob that
`process_collection` reads: `videoData.bvid` (the collection id) and
`videoData.ugc_season` (season title and sections). -/
structure CollectionData where
  seasonTitle : String
  bvid : String
  sections : List Sec
deriving Repr, DecidableEq

/-- The selected-video dictionaries built by `process_collection`
(`{'title': ..., 'bvid': ..., 'aid': ...}`). -/
structure VideoInfo where
  title : String
  bvid : String
  aid : Option Int
deriving Repr, DecidableEq

/-- Builds the selected-video dictionary for an episode: the display title
joins `title` and `long_title` with `' - '` when `long_title` is truthy
(lines 158-161 and the identical code at 180-189, 207-216). -/
def toInfo (e : Episode) : VideoInfo :=
  { title := if e.long_title ≠ "" then e.title ++ " - " ++ e.long_title else e.title
    bvid := e.bvid
    aid := e.aid }

/-- The episodes of all sections, in section order then episode order
(the nested `for section in sections: for episode in ...` loops). -/
def flatEpisodes (sections : List Sec) : List Episode :=
  sections.flatMap (fun s => s.episodes)

/-- State of one path of the filesystem, as far as the ledger code
observes it: absent, readable as a JSON array of strings, or present but
unreadable / not parseable as such an array. -/
inductive FileState where
  | missing
  | good (xs : List String)
  | bad
deriving Repr, DecidableEq

/-- The filesystem, a map from paths to file states. -/
def FS : Type := String → FileState

/-- `os.path.join(self.base_dir, f'progress_{collection_id}.json')` with
`base_dir = 'bilibili_video'` (lines 27, 85, 96). -/
def progressPath (cid : String) : String :=
  "bilibili_video/progress_" ++ cid ++ ".json"

/-- `_load_progress` (lines 83-92): read the per-collection ledger file;
a missing file, or any I/O or parse failure (the `except` at line 90),
yields the empty set. -/
def loadProgress (fs : FS) (cid : String) : List String :=
  match fs (progressPath cid) with
  | FileState.good xs => xs
  | _ => []

/-- `_save_progress` (lines 94-101): overwrite the ledger file with the
given set, serialised as a JSON array. -/
def saveProgress (fs : FS) (cid : String) (ids : List String) : FS :=
  fun p => if p = progressPath cid then FileState.good ids else fs p

/-- The notice `f'跳过已下载的视频：{bvid}'` (lines 155, 225). -/
def skipMsg (bvid : String) : String :=
  "跳过已下载的视频：" ++ bvid

/-- The report `f'无效的区间范围，请输入1到{len(all_videos)}之间的数字'`
(line 227). -/
def rangeErrorMsg (n : Nat) : String :=
  "无效的区间范围，请输入1到" ++ toString n ++ "之间的数字"

/-- The report printed by the `except (ValueError, IndexError)` handler of
the range branch (line 229). -/
def formatErrorMsg : String :=
  "输入格式错误，请按照\"起始序号,结束序号\"的格式输入"

/-- The `choice == '1'` loop (lines 149-167): walk every episode; an
episode whose `bvid` is in the ledger is skipped with a notice; otherwise
it is selected when its `bvid` is truthy.  Returns (selected, notices). -/
def selectAllEps : List Episode → List String → List VideoInfo × List String
  | [], _ => ([], [])
  | e :: rest, ledger =>
    let r := selectAllEps rest ledger
    if e.bvid ∈ ledger then (r.1, skipMsg e.bvid :: r.2)
    else if e.bvid ≠ "" then (toInfo e :: r.1, r.2)
    else r

/-- The `all_videos` list of the range branch (lines 202-216): every
episode with a truthy `bvid`, flattened, as selected-video dictionaries. -/
def allVideos (eps : List Episode) : List VideoInfo :=
  (eps.filter (fun e => e.bvid != "")).map toInfo

/-- The loop over the validated slice (lines 220-225): a slice element
whose `bvid` is in the ledger is skipped with a notice, the others are
selected in order.  Returns (selected, notices). -/
def selectRangeEps : List VideoInfo → List String → List VideoInfo × List String
  | [], _ => ([], [])
  | v :: rest, ledger =>
    let r := selectRangeEps rest ledger
    if v.bvid ∈ ledger then (r.1, skipMsg v.bvid :: r.2)
    else (v :: r.1, r.2)

/-- The `video_map` dict of the `choice == '2'` branch (lines 174-192),
as its insertion-order association list: for each episode with a truthy
`bvid`, the key `str(index)` and then the key `bvid` are bound to the
episode's dictionary, and `index` (starting at 1) is incremented. -/
def buildVideoMap : List Episode → Nat → List (String × VideoInfo)
  | [], _ => []
  | e :: rest, k =>
    if e.bvid ≠ "" then
      (toString k, toInfo e) :: (e.bvid, toInfo e) :: buildVideoMap rest (k + 1)
    else buildVideoMap rest k

/-- Python dict lookup on the insertion-order association list: the most
recent binding of a key wins (a later `video_map[key] = ...` overwrites an
earlier one). -/
def dictGet : List (String × VideoInfo) → String → Option VideoInfo
  | [], _ => none
  | p :: rest, k =>
    match dictGet rest k with
    | some v => some v
    | none => if k = p.1 then some p.2 else none

/-- Python `str.strip()` with no argument: drop leading and trailing
whitespace. -/
def trimChars (cs : List Char) : List Char :=
  ((cs.dropWhile Char.isWhitespace).reverse.dropWhile Char.isWhitespace).reverse

/-- Python `str.split(sep)` for a one-character separator: the groups of
characters between occurrences of the separator (always at least one
group, possibly empty groups). -/
def splitChars (sep : Char) : List Char → List (List Char)
  | [] => [[]]
  | c :: rest =>
    match splitChars sep rest with
    | [] => [[]]
    | g :: gs => if c = sep then [] :: g :: gs else (c :: g) :: gs

/-- `selection.strip().replace('，', ',')` followed by
`[x.strip() for x in selection.split(',') if x.strip()]` (lines 171-172);
the one-character `str.replace` is a character map. -/
def tokenize (line : String) : List String :=
  ((((splitChars ','
      ((trimChars line.toList).map (fun c => if c = '，' then ',' else c))).map
    (fun x => trimChars x)).filter (fun x => decide (x ≠ []))).map
    (fun x => String.mk x))

/-- The token loop of the `choice == '2'` branch (lines 194-196): each
token found in `video_map` contributes its episode, in token order;
unrecognized tokens are dropped. -/
def selectByIds (tokens : List String) (m : List (String × VideoInfo)) :
    List VideoInfo :=
  tokens.filterMap (fun t => dictGet m t)

/-- Whether a character list is accepted by Python `int` after the sign:
digits with single underscores strictly between digits.  Handles the
characters that follow an accepted digit. -/
def pyDigitsRest : List Char → Bool
  | [] => true
  | '_' :: c :: rest => c.isDigit && pyDigitsRest rest
  | ['_'] => false
  | c :: rest => c.isDigit && pyDigitsRest rest

/-- A nonempty digit string (with Python's underscore rule). -/
def pyDigitsOk : List Char → Bool
  | [] => false
  | c :: rest => c.isDigit && pyDigitsRest rest

/-- Numeric value of a digit string, ignoring underscores. -/
def digitsToNat (cs : List Char) : Nat :=
  cs.foldl (fun a c => if c = '_' then a else a * 10 + (c.toNat - 48)) 0

/-- Python `int(s)` on a character list: optional surrounding whitespace,
optional sign, then a digit string.  Returns `none` where `int` raises
`ValueError`.  (Only ASCII digits and whitespace are modelled.) -/
def parsePyIntChars (cs : List Char) : Option Int :=
  match trimChars cs with
  | '+' :: rest => if pyDigitsOk rest then some ((digitsToNat rest : Nat) : Int) else none
  | '-' :: rest => if pyDigitsOk rest then some (-((digitsToNat rest : Nat) : Int)) else none
  | t => if pyDigitsOk t then some ((digitsToNat t : Nat) : Int) else none

/-- `start, end = map(int, input('> ').strip().split(','))` (line 201):
succeeds exactly when the comma-split of the stripped line has exactly two
parts and both parse as Python ints; any other outcome raises
`ValueError`, which the handler at line 228 catches. -/
def parseRange (line : String) : Option (Int × Int) :=
  match (splitChars ',' (trimChars line.toList)).map parsePyIntChars with
  | [some a, some b] => some (a, b)
  | _ => none

/-- Result of `process_collection`: the returned `selected_videos`, the
decision-relevant console messages, and the filesystem after the call. -/
structure SelResult where
  selected : List VideoInfo
  notices : List String
  fsOut : FS

/-- The branching of `process_collection` after the ledger has been
loaded (lines 141-231), as a pure function of the loaded ledger, the
flattened episode list, the menu answer `choice` and the follow-up input
`line` read by branches `'2'` and `'3'` (unused by the others): branch
`'1'` walks all episodes, branch `'2'` resolves tokens through
`video_map`, branch `'3'` validates `1 <= start <= end <= len(all_videos)`
and takes the inclusive slice, and any other choice falls through to the
initial empty `selected_videos`. -/
def selectVideos (ledger : List String) (eps : List Episode) (choice : String)
    (line : String) : List VideoInfo × List String :=
  if choice = "1" then selectAllEps eps ledger
  else if choice = "2" then
    (selectByIds (tokenize line) (buildVideoMap eps 1), [])
  else if choice = "3" then
    match parseRange line with
    | some (s, e) =>
      let avs := allVideos eps
      if 1 ≤ s ∧ s ≤ e ∧ e ≤ (avs.length : Int) then
        selectRangeEps ((avs.drop (s.toNat - 1)).take (e.toNat - (s.toNat - 1))) ledger
      else ([], [rangeErrorMsg avs.length])
    | none => ([], [formatErrorMsg])
  else ([], [])

/-- `process_collection` (lines 103-231): load the ledger for
`videoData.bvid` once at entry (line 111), then select according to the
operator's input.  The function never writes to the filesystem; `fsOut`
is the filesystem as the call leaves it. -/
def processCollection (fs : FS) (data : CollectionData) (choice : String)
    (line : String) : SelResult :=
  let r := selectVideos (loadProgress fs data.bvid) (flatEpisodes data.sections) choice line
  { selected := r.1, notices := r.2, fsOut := fs }

/-- External outcomes `process_video` observes: whether the download of an
episode (the `download_video` call chain, lines 285-342) succeeds. -/
structure PVEnv where
  downloadOk : VideoInfo → Bool

/-- The pipeline invocations of the loop body of `process_video`
(lines 412-440), logged for the frame theorems. -/
inductive PVAction where
  | download (v : VideoInfo)
  | extractAudio (v : VideoInfo)
  | splitAudio (v : VideoInfo)
  | transcribeAudio (v : VideoInfo)
  | saveProg (ids : List String)
deriving Repr, DecidableEq

/-- State threaded through the loop of `process_video`: the transcript
files on disk, the in-memory `downloaded_videos` set, the log of the sets
passed to `_save_progress`, and the log of pipeline invocations. -/
structure PVState where
  outFiles : List String
  downloaded : List String
  saves : List (List String)
  actions : List PVAction
deriving Repr, DecidableEq

/-- `f"bilibili_video/{video['title']}/outputs"` joined with
`f"{video['bvid']}.txt"` (lines 416-417). -/
def outputPath (v : VideoInfo) : String :=
  "bilibili_video/" ++ v.title ++ "/outputs/" ++ v.bvid ++ ".txt"

/-- One iteration of the `for video in videos` loop of `process_video`
(lines 412-440): skip when the transcript file already exists (lines
418-420); skip without marking progress when the download fails (lines
423-426); otherwise extract, split and transcribe (which writes the
transcript file), then, when a collection id is present, add the `bvid`
to `downloaded_videos` and save the ledger (lines 437-440). -/
def pvStep (cid : String) (env : PVEnv) (st : PVState) (v : VideoInfo) : PVState :=
  if outputPath v ∈ st.outFiles then st
  else if env.downloadOk v = false then
    { st with actions := st.actions ++ [PVAction.download v] }
  else
    let st1 : PVState :=
      { st with
        outFiles := st.outFiles ++ [outputPath v]
        actions := st.actions ++ [PVAction.download v, PVAction.extractAudio v,
          PVAction.splitAudio v, PVAction.transcribeAudio v] }
    if cid ≠ "" then
      let d := if v.bvid ∈ st1.downloaded then st1.downloaded
               else st1.downloaded ++ [v.bvid]
      { st1 with downloaded := d, saves := st1.saves ++ [d]
                 actions := st1.actions ++ [PVAction.saveProg d] }
    else st1

/-- The loop of `process_video` over the selected videos, starting from
the ledger loaded at line 410 (`_load_progress` when a collection id is
present, the empty set otherwise) and from the transcript files already
on disk. -/
def processVideoRun (fs : FS) (env : PVEnv) (cid : String)
    (videos : List VideoInfo) (initialOut : List String) : PVState :=
  videos.foldl (pvStep cid env)
    { outFiles := initialOut
      downloaded := if cid ≠ "" then loadProgress fs cid else []
      saves := []
      actions := [] }

/-- Invariant of the `process_video` loop: the initially loaded ledger is
contained in the in-memory set, every set already passed to
`_save_progress` is contained in the in-memory set and contains the
initially loaded ledger, and the saved sets form a chain under
inclusion. -/
def LedgerInv (d0 : List String) (st : PVState) : Prop :=
  d0 ⊆ st.downloaded ∧
  (∀ s ∈ st.saves, s ⊆ st.downloaded ∧ d0 ⊆ s) ∧
  st.saves.Pairwise (· ⊆ ·)

/-- The keys of `video_map`, in insertion order. -/
def vmKeys (eps : List Episode) (k : Nat) : List String :=
  (buildVideoMap eps k).map Prod.fst

/-- The last episode, in construction order, that binds key `t` while
`video_map` is built from `eps` with first index `k`: entries are written
in episode order, and within one episode the index key is written before
the `bvid` key, so a later binding overwrites an earlier one.  (Meaningful
when every episode of `eps` has a video id, so that every episode consumes
one index.) -/
def lastOwner : List Episode → Nat → String → Option Episode
  | [], _, _ => none
  | e :: rest, k, t =>
    match lastOwner rest (k + 1) t with
    | some r => some r
    | none => if t = e.bvid ∨ t = toString k then some e else none

/-! Concrete sample data used by the witness theorems. -/

/-- A filesystem with no files. -/
def emptyFS : FS := fun _ => FileState.missing

/-- A filesystem whose every file is unreadable. -/
def badFS : FS := fun _ => FileState.bad

/-- Two sample episodes (the second with a `long_title`). -/
def sampleEps : List Episode :=
  [{ title := "第1集", long_title := "", bvid := "BVaaa", aid := some 1 },
   { title := "第2集", long_title := "下", bvid := "BVbbb", aid := none }]

/-- A sample one-section collection with id `BVcol`. -/
def sampleData : CollectionData :=
  { seasonTitle := "合集", bvid := "BVcol", sections := [{ title := "正片", episodes := sampleEps }] }

/-- A filesystem whose ledger for `BVcol` records `BVbbb` as done. -/
def sampleFS : FS :=
  fun p => if p = progressPath "BVcol" then FileState.good ["BVbbb"] else FileState.missing

/-- A sample selected-video record. -/
def sampleVideo : VideoInfo := { title := "第1集", bvid := "BVaaa", aid := some 1 }

/-- A loop state in which `sampleVideo`'s transcript already exists. -/
def samplePVState : PVState :=
  { outFiles := [outputPath sampleVideo], downloaded := ["BVzzz"], saves := [], actions := [] }

/-- An environment in which every download succeeds. -/
def sampleEnv : PVEnv := { downloadOk := fun _ => true }

/-- Two episodes whose `video_map` keys collide: the first episode's
`bvid` is the literal string `"2"`, the positional key of the second. -/
def collideEps : List Episode :=
  [{ title := "甲", long_title := "", bvid := "2", aid := none },
   { title := "乙", long_title := "", bvid := "BVxyz", aid := none }]

/-! ## Theorems -/

/-- C5: for every collection id, `_load_progress` returns the empty set
when no progress record exists or when reading/parsing it fails; the
`except` handler at lines 90-91 catches I/O and parse errors, which the
totality of `loadProgress` reflects (it never raises). -/
theorem loadProgress_degrades_to_empty (fs : FS) (cid : String)
    (h : fs (progressPath cid) = FileState.missing ∨ fs (progressPath cid) = FileState.bad) :
    loadProgress fs cid = [] := by
  unfold loadProgress
  rcases h with h | h <;> rw [h]

/-- Witness for C5: a missing ledger and an unreadable ledger both load as
the empty set. -/
theorem loadProgress_degrades_to_empty_witness :
    (emptyFS (progressPath "BVcol") = FileState.missing ∨
      emptyFS (progressPath "BVcol") = FileState.bad) ∧
    loadProgress emptyFS "BVcol" = [] :=
  ⟨Or.inl rfl, loadProgress_degrades_to_empty emptyFS "BVcol" (Or.inl rfl)⟩

/-- C6: ledger round-trip — after `_save_progress(cid, S)` succeeds, a
subsequent `_load_progress(cid)` returns exactly `S`; and a missing
ledger file loads as the empty set. -/
theorem saveProgress_loadProgress_roundtrip (fs : FS) (cid : String) (ids : List String) :
    loadProgress (saveProgress fs cid ids) cid = ids ∧
    (fs (progressPath cid) = FileState.missing → loadProgress fs cid = []) := by
  refine ⟨?_, ?_⟩
  · unfold loadProgress saveProgress
    simp
  · intro h
    unfold loadProgress
    rw [h]

/-- Witness for C6: the spec's scenario — a missing file loads as the
empty set, and `save({"a","b"})` followed by `load` returns `{"a","b"}`. -/
theorem saveProgress_loadProgress_roundtrip_witness :
    loadProgress (saveProgress emptyFS "c" ["a", "b"]) "c" = ["a", "b"] ∧
    loadProgress emptyFS "c" = [] :=
  ⟨(saveProgress_loadProgress_roundtrip emptyFS "c" ["a", "b"]).1,
   (saveProgress_loadProgress_roundtrip emptyFS "c" ["a", "b"]).2 rfl⟩

/-- C8: selection is a deterministic pure function of its inputs — two
runs of `process_collection` on the same metadata and operator input and
with equal ledger contents produce the same selected list and the same
notices, and the call leaves the filesystem (hence the ledger) unchanged. -/
theorem processCollection_pure_deterministic (fs fs' : FS) (data : CollectionData)
    (choice line : String)
    (h : loadProgress fs data.bvid = loadProgress fs' data.bvid) :
    (processCollection fs data choice line).selected
      = (processCollection fs' data choice line).selected ∧
    (processCollection fs data choice line).notices
      = (processCollection fs' data choice line).notices ∧
    (processCollection fs data choice line).fsOut = fs := by
  refine ⟨?_, ?_, rfl⟩ <;> simp [processCollection, h]

/-- Witness for C8: two filesystems that differ on unrelated paths but
agree on the ledger of `BVcol` yield identical selections. -/
theorem processCollection_pure_deterministic_witness :
    loadProgress sampleFS sampleData.bvid = loadProgress sampleFS sampleData.bvid ∧
    ((processCollection sampleFS sampleData "1" "").selected
      = (processCollection sampleFS sampleData "1" "").selected ∧
    (processCollection sampleFS sampleData "1" "").notices
      = (processCollection sampleFS sampleData "1" "").notices ∧
    (processCollection sampleFS sampleData "1" "").fsOut = sampleFS) :=
  ⟨rfl, processCollection_pure_deterministic sampleFS sampleFS sampleData "1" "" rfl⟩

/-- C10: in the loop of `process_video`, an episode whose transcript file
already exists at the expected output path is skipped entirely — the loop
state is returned unchanged, so no download, extraction, splitting or
transcription is logged, `downloaded_videos` is not extended, and no set
is passed to `_save_progress`. -/
theorem pvStep_skips_existing (cid : String) (env : PVEnv) (st : PVState)
    (v : VideoInfo) (h : outputPath v ∈ st.outFiles) :
    pvStep cid env st v = st := by
  unfold pvStep
  rw [if_pos h]

/-- Witness for C10: a concrete state already holding the transcript of
`sampleVideo` is left untouched. -/
theorem pvStep_skips_existing_witness :
    outputPath sampleVideo ∈ samplePVState.outFiles ∧
    pvStep "BVcol" sampleEnv samplePVState sampleVideo = samplePVState :=
  ⟨by decide, pvStep_skips_existing "BVcol" sampleEnv samplePVState sampleVideo (by decide)⟩

/-- The `choice == '1'` loop, in closed form: when every episode has a
video id, the selection is the ledger-free episodes in order and the
notices are one skip message per ledger-recorded episode, in order. -/
theorem selectAllEps_eq (ledger : List String) (eps : List Episode)
    (h0 : ∀ e ∈ eps, e.bvid ≠ "") :
    selectAllEps eps ledger =
      ((eps.filter (fun e => decide (e.bvid ∉ ledger))).map toInfo,
       (eps.filter (fun e => decide (e.bvid ∈ ledger))).map (fun e => skipMsg e.bvid)) := by
  induction eps with
  | nil => rfl
  | cons e rest ih =>
    have he : e.bvid ≠ "" := h0 e (by simp)
    have hrest := ih (fun x hx => h0 x (by simp [hx]))
    by_cases hm : e.bvid ∈ ledger <;> simp [selectAllEps, hrest, hm, he]

/-- C1: with selection mode All (choice `'1'`), `process_collection`
returns every episode across all sections in section-then-episode order,
excluding exactly the episodes whose video id is in the loaded ledger,
and emits one console notice per episode skipped because of the ledger.
(Hypothesis: every episode carries a video id, as the `EpisodeRecord`
data model requires; an episode with a falsy `bvid` is unselectable.) -/
theorem processCollection_all_spec (fs : FS) (data : CollectionData) (line : String)
    (h0 : ∀ e ∈ flatEpisodes data.sections, e.bvid ≠ "") :
    (processCollection fs data "1" line).selected
      = ((flatEpisodes data.sections).filter
          (fun e => decide (e.bvid ∉ loadProgress fs data.bvid))).map toInfo ∧
    (processCollection fs data "1" line).notices
      = ((flatEpisodes data.sections).filter
          (fun e => decide (e.bvid ∈ loadProgress fs data.bvid))).map
          (fun e => skipMsg e.bvid) := by
  have h := selectAllEps_eq (loadProgress fs data.bvid) (flatEpisodes data.sections) h0
  constructor <;> simp [processCollection, selectVideos, h]

/-- Witness for C1: on the sample collection whose ledger records
`BVbbb`, mode All selects episode 1 and skips episode 2 with a notice. -/
theorem processCollection_all_spec_witness :
    (∀ e ∈ flatEpisodes sampleData.sections, e.bvid ≠ "") ∧
    ((processCollection sampleFS sampleData "1" "").selected
      = ((flatEpisodes sampleData.sections).filter
          (fun e => decide (e.bvid ∉ loadProgress sampleFS sampleData.bvid))).map toInfo ∧
    (processCollection sampleFS sampleData "1" "").notices
      = ((flatEpisodes sampleData.sections).filter
          (fun e => decide (e.bvid ∈ loadProgress sampleFS sampleData.bvid))).map
          (fun e => skipMsg e.bvid)) :=
  ⟨by decide, processCollection_all_spec sampleFS sampleData "" (by decide)⟩

/-- The slice loop of the range branch, in closed form. -/
theorem selectRangeEps_eq (ledger : List String) (vs : List VideoInfo) :
    selectRangeEps vs ledger =
      (vs.filter (fun v => decide (v.bvid ∉ ledger)),
       (vs.filter (fun v => decide (v.bvid ∈ ledger))).map (fun v => skipMsg v.bvid)) := by
  induction vs with
  | nil => rfl
  | cons v rest ih => by_cases hm : v.bvid ∈ ledger <;> simp [selectRangeEps, ih, hm]

/-- When every episode has a video id, `all_videos` is the whole
flattened episode list. -/
theorem allVideos_of_nonempty (eps : List Episode)
    (h0 : ∀ e ∈ eps, e.bvid ≠ "") :
    allVideos eps = eps.map toInfo := by
  unfold allVideos
  rw [List.filter_eq_self.mpr]
  intro e he
  simpa using h0 e he

/-- The range branch on a line that parses to a valid range reduces to
the ledger filter of the inclusive slice. -/
theorem selectVideos_range_valid (ledger : List String) (eps : List Episode)
    (line : String) (s e : Int) (hp : parseRange line = some (s, e))
    (hcond : 1 ≤ s ∧ s ≤ e ∧ e ≤ ((allVideos eps).length : Int)) :
    selectVideos ledger eps "3" line =
      selectRangeEps (((allVideos eps).drop (s.toNat - 1)).take
        (e.toNat - (s.toNat - 1))) ledger := by
  simp [selectVideos, hp, hcond]

/-- C2: with selection mode Range (choice `'3'`) and a request `(s, e)`
satisfying `1 ≤ s ≤ e ≤ N` (with `N` the length of the flattened episode
list), `process_collection` returns the ledger filter of the inclusive
slice from position `s` to position `e`, in order, with one skip notice
per ledger-recorded episode of the slice; the result length is at most
`e - s + 1` and equals `e - s + 1` when no episode of the slice is in the
ledger.  (Hypothesis: every episode carries a video id, so the
`all_videos` list of the source coincides with the flattened list.) -/
theorem processCollection_range_spec (fs : FS) (data : CollectionData) (line : String)
    (s e : Int) (hp : parseRange line = some (s, e))
    (h1 : 1 ≤ s) (h2 : s ≤ e)
    (h3 : e ≤ ((flatEpisodes data.sections).length : Int))
    (h0 : ∀ ep ∈ flatEpisodes data.sections, ep.bvid ≠ "") :
    (processCollection fs data "3" line).selected
      = ((((flatEpisodes data.sections).map toInfo).drop (s.toNat - 1)).take
          (e.toNat - s.toNat + 1)).filter
          (fun v => decide (v.bvid ∉ loadProgress fs data.bvid)) ∧
    (processCollection fs data "3" line).notices
      = (((((flatEpisodes data.sections).map toInfo).drop (s.toNat - 1)).take
          (e.toNat - s.toNat + 1)).filter
          (fun v => decide (v.bvid ∈ loadProgress fs data.bvid))).map
          (fun v => skipMsg v.bvid) ∧
    (processCollection fs data "3" line).selected.length ≤ e.toNat - s.toNat + 1 ∧
    ((∀ v ∈ (((flatEpisodes data.sections).map toInfo).drop (s.toNat - 1)).take
        (e.toNat - s.toNat + 1), v.bvid ∉ loadProgress fs data.bvid) →
      (processCollection fs data "3" line).selected.length = e.toNat - s.toNat + 1) := by
  have hall : allVideos (flatEpisodes data.sections)
      = (flatEpisodes data.sections).map toInfo := allVideos_of_nonempty _ h0
  have hlen : (allVideos (flatEpisodes data.sections)).length
      = (flatEpisodes data.sections).length := by rw [hall]; simp
  have hcond : 1 ≤ s ∧ s ≤ e ∧ e ≤ ((allVideos (flatEpisodes data.sections)).length : Int) := by
    refine ⟨h1, h2, ?_⟩
    rw [hlen]
    exact h3
  have harith : e.toNat - (s.toNat - 1) = e.toNat - s.toNat + 1 := by omega
  have hsel := selectVideos_range_valid (loadProgress fs data.bvid)
    (flatEpisodes data.sections) line s e hp hcond
  rw [selectRangeEps_eq, hall, harith] at hsel
  have hsel1 : (processCollection fs data "3" line).selected
      = ((((flatEpisodes data.sections).map toInfo).drop (s.toNat - 1)).take
          (e.toNat - s.toNat + 1)).filter
          (fun v => decide (v.bvid ∉ loadProgress fs data.bvid)) := by
    simp [processCollection, hsel]
  have hsel2 : (processCollection fs data "3" line).notices
      = (((((flatEpisodes data.sections).map toInfo).drop (s.toNat - 1)).take
          (e.toNat - s.toNat + 1)).filter
          (fun v => decide (v.bvid ∈ loadProgress fs data.bvid))).map
          (fun v => skipMsg v.bvid) := by
    simp [processCollection, hsel]
  have hslicelen : ((((flatEpisodes data.sections).map toInfo).drop (s.toNat - 1)).take
      (e.toNat - s.toNat + 1)).length = e.toNat - s.toNat + 1 := by
    rw [List.length_take, List.length_drop, List.length_map]
    omega
  refine ⟨hsel1, hsel2, ?_, ?_⟩
  · rw [hsel1]
    calc (((((flatEpisodes data.sections).map toInfo).drop (s.toNat - 1)).take
            (e.toNat - s.toNat + 1)).filter
            (fun v => decide (v.bvid ∉ loadProgress fs data.bvid))).length
        ≤ ((((flatEpisodes data.sections).map toInfo).drop (s.toNat - 1)).take
            (e.toNat - s.toNat + 1)).length := List.length_filter_le _ _
      _ = e.toNat - s.toNat + 1 := hslicelen
  · intro hnone
    rw [hsel1, List.filter_eq_self.mpr, hslicelen]
    intro v hv
    simpa using hnone v hv

/-- Witness for C2: on the sample collection, the range `1,2` is valid
and selects according to the ledger filter of the whole slice. -/
theorem processCollection_range_spec_witness :
    (parseRange "1,2" = some (1, 2) ∧ (1 : Int) ≤ 1 ∧ (1 : Int) ≤ 2 ∧
      (2 : Int) ≤ ((flatEpisodes sampleData.sections).length : Int) ∧
      (∀ ep ∈ flatEpisodes sampleData.sections, ep.bvid ≠ "")) ∧
    ((processCollection sampleFS sampleData "3" "1,2").selected
      = ((((flatEpisodes sampleData.sections).map toInfo).drop ((1 : Int).toNat - 1)).take
          ((2 : Int).toNat - (1 : Int).toNat + 1)).filter
          (fun v => decide (v.bvid ∉ loadProgress sampleFS sampleData.bvid)) ∧
    (processCollection sampleFS sampleData "3" "1,2").notices
      = (((((flatEpisodes sampleData.sections).map toInfo).drop ((1 : Int).toNat - 1)).take
          ((2 : Int).toNat - (1 : Int).toNat + 1)).filter
          (fun v => decide (v.bvid ∈ loadProgress sampleFS sampleData.bvid))).map
          (fun v => skipMsg v.bvid) ∧
    (processCollection sampleFS sampleData "3" "1,2").selected.length
      ≤ (2 : Int).toNat - (1 : Int).toNat + 1 ∧
    ((∀ v ∈ (((flatEpisodes sampleData.sections).map toInfo).drop ((1 : Int).toNat - 1)).take
        ((2 : Int).toNat - (1 : Int).toNat + 1),
        v.bvid ∉ loadProgress sampleFS sampleData.bvid) →
      (processCollection sampleFS sampleData "3" "1,2").selected.length
        = (2 : Int).toNat - (1 : Int).toNat + 1)) :=
  ⟨⟨by decide, by decide, by decide, by decide, by decide⟩,
   processCollection_range_spec sampleFS sampleData "1,2" 1 2 (by decide) (by decide)
     (by decide) (by decide) (by decide)⟩

/-- C3: with selection mode Range and an invalid request — the line does
not parse as two Python ints, or `s > e`, or `s < 1`, or `e` exceeds the
number of episodes — `process_collection` reports exactly one error (the
format error or the range error) and returns the empty list; totality of
the embedding reflects that the `except (ValueError, IndexError)` handler
prevents any exception from such operator input. -/
theorem processCollection_range_invalid (fs : FS) (data : CollectionData) (line : String)
    (h : ∀ s e : Int, parseRange line = some (s, e) →
      e < s ∨ s < 1 ∨ ((flatEpisodes data.sections).length : Int) < e) :
    (processCollection fs data "3" line).selected = [] ∧
    ((processCollection fs data "3" line).notices = [formatErrorMsg] ∨
     (processCollection fs data "3" line).notices
       = [rangeErrorMsg (allVideos (flatEpisodes data.sections)).length]) := by
  have havle : (allVideos (flatEpisodes data.sections)).length
      ≤ (flatEpisodes data.sections).length := by
    unfold allVideos
    rw [List.length_map]
    exact List.length_filter_le _ _
  cases hp : parseRange line with
  | none =>
    refine ⟨?_, Or.inl ?_⟩ <;> simp [processCollection, selectVideos, hp]
  | some p =>
    obtain ⟨s, e⟩ := p
    have hcond : ¬(1 ≤ s ∧ s ≤ e ∧ e ≤ ((allVideos (flatEpisodes data.sections)).length : Int)) := by
      rcases h s e hp with h' | h' | h'
      · rintro ⟨-, hse, -⟩
        omega
      · rintro ⟨hs1, -, -⟩
        omega
      · rintro ⟨-, -, hle⟩
        have : ((allVideos (flatEpisodes data.sections)).length : Int)
            ≤ ((flatEpisodes data.sections).length : Int) := by exact_mod_cast havle
        omega
    refine ⟨?_, Or.inr ?_⟩ <;> simp [processCollection, selectVideos, hp, hcond]

/-- Witness for C3: the request `5,2` (start past end) yields the empty
selection and a reported error on the sample collection. -/
theorem processCollection_range_invalid_witness :
    (processCollection sampleFS sampleData "3" "5,2").selected = [] ∧
    ((processCollection sampleFS sampleData "3" "5,2").notices = [formatErrorMsg] ∨
     (processCollection sampleFS sampleData "3" "5,2").notices
       = [rangeErrorMsg (allVideos (flatEpisodes sampleData.sections)).length]) :=
  processCollection_range_invalid sampleFS sampleData "5,2" (by
    intro s e hp
    have h52 : parseRange "5,2" = some ((5 : Int), (2 : Int)) := by decide
    rw [h52] at hp
    obtain ⟨rfl, rfl⟩ := Prod.mk.injEq .. ▸ Option.some.inj hp
    left
    decide)

/-- One loop iteration preserves the ledger invariant. -/
theorem ledgerInv_pvStep (cid : String) (env : PVEnv) (d0 : List String)
    (st : PVState) (v : VideoInfo) (h : LedgerInv d0 st) :
    LedgerInv d0 (pvStep cid env st v) := by
  obtain ⟨h1, h2, h3⟩ := h
  unfold pvStep
  split
  · exact ⟨h1, h2, h3⟩
  · split
    · exact ⟨h1, h2, h3⟩
    · split
      · set d := if v.bvid ∈ st.downloaded then st.downloaded
                 else st.downloaded ++ [v.bvid] with hd
        have hmono : st.downloaded ⊆ d := by
          rw [hd]
          split
          · exact List.Subset.refl _
          · exact List.subset_append_left _ _
        refine ⟨h1.trans hmono, ?_, ?_⟩
        · intro s hs
          rcases List.mem_append.mp hs with hs | hs
          · exact ⟨(h2 s hs).1.trans hmono, (h2 s hs).2⟩
          · rw [List.mem_singleton.mp hs]
            exact ⟨List.Subset.refl _, h1.trans hmono⟩
        · refine List.pairwise_append.mpr ⟨h3, List.pairwise_singleton _ _, ?_⟩
          intro a ha b hb
          rw [List.mem_singleton.mp hb]
          exact (h2 a ha).1.trans hmono
      · exact ⟨h1, h2, h3⟩

/-- The whole loop preserves the ledger invariant. -/
theorem ledgerInv_foldl (cid : String) (env : PVEnv) (d0 : List String)
    (videos : List VideoInfo) (st : PVState) (h : LedgerInv d0 st) :
    LedgerInv d0 (videos.foldl (pvStep cid env) st) := by
  induction videos generalizing st with
  | nil => exact h
  | cons v rest ih => exact ih _ (ledgerInv_pvStep cid env d0 st v h)

/-- C7: the ledger only grows — during a run of `process_video` over a
collection, every set passed to `_save_progress` contains the initially
loaded ledger, and the saved sets form an inclusion chain in save order
(each later set contains every earlier one); entries are only added,
never removed. -/
theorem processVideo_ledger_monotone (fs : FS) (env : PVEnv) (cid : String)
    (videos : List VideoInfo) (initialOut : List String) (hcid : cid ≠ "") :
    (∀ s ∈ (processVideoRun fs env cid videos initialOut).saves,
      loadProgress fs cid ⊆ s) ∧
    (processVideoRun fs env cid videos initialOut).saves.Pairwise (· ⊆ ·) := by
  have h0 : LedgerInv (loadProgress fs cid)
      { outFiles := initialOut
        downloaded := if cid ≠ "" then loadProgress fs cid else []
        saves := []
        actions := [] } := by
    refine ⟨?_, by simp, by simp⟩
    simp [hcid]
  have h := ledgerInv_foldl cid env (loadProgress fs cid) videos _ h0
  exact ⟨fun s hs => (h.2.1 s hs).2, h.2.2⟩

/-- Witness for C7: a concrete one-episode run over collection `BVcol`. -/
theorem processVideo_ledger_monotone_witness :
    ("BVcol" : String) ≠ "" ∧
    ((∀ s ∈ (processVideoRun sampleFS sampleEnv "BVcol" [sampleVideo] []).saves,
      loadProgress sampleFS "BVcol" ⊆ s) ∧
    (processVideoRun sampleFS sampleEnv "BVcol" [sampleVideo] []).saves.Pairwise (· ⊆ ·)) :=
  ⟨by decide, processVideo_ledger_monotone sampleFS sampleEnv "BVcol" [sampleVideo] [] (by decide)⟩

/-- Unfolding of the `video_map` keys at an episode with a video id. -/
theorem vmKeys_cons (e : Episode) (rest : List Episode) (k : Nat) (he : e.bvid ≠ "") :
    vmKeys (e :: rest) k = toString k :: e.bvid :: vmKeys rest (k + 1) := by
  simp [vmKeys, buildVideoMap, he]

/-- Dict lookup in `video_map` returns the entry of the last episode that
bound the key (when every episode has a video id). -/
theorem dictGet_eq_lastOwner (t : String) :
    ∀ (eps : List Episode) (k : Nat), (∀ e ∈ eps, e.bvid ≠ "") →
      dictGet (buildVideoMap eps k) t = (lastOwner eps k t).map toInfo := by
  intro eps
  induction eps with
  | nil => intro k _; rfl
  | cons e rest ih =>
    intro k h0
    have he : e.bvid ≠ "" := h0 e (by simp)
    have hrest := ih (k + 1) (fun x hx => h0 x (by simp [hx]))
    cases hlo : lastOwner rest (k + 1) t with
    | some r =>
      have hd : dictGet (buildVideoMap rest (k + 1)) t = some (toInfo r) := by
        rw [hrest, hlo]
        rfl
      simp [buildVideoMap, he, dictGet, hd, lastOwner, hlo]
    | none =>
      have hd : dictGet (buildVideoMap rest (k + 1)) t = none := by
        rw [hrest, hlo]
        rfl
      by_cases h1 : t = e.bvid
      · subst h1
        simp [buildVideoMap, he, dictGet, hd, lastOwner, hlo]
      · by_cases h2 : t = toString k
        · subst h2
          simp [buildVideoMap, he, dictGet, hd, lastOwner, hlo, h1]
        · simp [buildVideoMap, he, dictGet, hd, lastOwner, hlo, h1, h2]

/-- `lastOwner` over an appended list: the right part wins when it binds
the key. -/
theorem lastOwner_append (ys : List Episode) (t : String) :
    ∀ (xs : List Episode) (k : Nat),
      lastOwner (xs ++ ys) k t =
        match lastOwner ys (k + xs.length) t with
        | some r => some r
        | none => lastOwner xs k t := by
  intro xs
  induction xs with
  | nil =>
    intro k
    simp only [List.nil_append, List.length_nil, Nat.add_zero]
    cases lastOwner ys k t <;> simp [lastOwner]
  | cons e rest ih =>
    intro k
    have harith : k + 1 + rest.length = k + (rest.length + 1) := by omega
    simp only [List.cons_append, lastOwner, List.length_cons, List.append_eq]
    rw [ih (k + 1), harith]
    cases lastOwner ys (k + (rest.length + 1)) t <;>
      cases lastOwner rest (k + 1) t <;> simp

/-- A key bound by no episode has no last owner. -/
theorem lastOwner_eq_none (t : String) :
    ∀ (eps : List Episode) (k : Nat), (∀ e ∈ eps, e.bvid ≠ "") →
      t ∉ vmKeys eps k → lastOwner eps k t = none := by
  intro eps
  induction eps with
  | nil => intro k _ _; rfl
  | cons e rest ih =>
    intro k h0 h
    have he : e.bvid ≠ "" := h0 e (by simp)
    rw [vmKeys_cons e rest k he] at h
    simp only [List.mem_cons, not_or] at h
    obtain ⟨h1, h2, h3⟩ := h
    simp [lastOwner, ih (k + 1) (fun x hx => h0 x (by simp [hx])) h3, h1, h2]

/-- Every `video_map` key is an index key or a `bvid` key of some
episode. -/
theorem mem_vmKeys (t : String) :
    ∀ (eps : List Episode) (k : Nat), (∀ e ∈ eps, e.bvid ≠ "") →
      t ∈ vmKeys eps k →
      ∃ l, ∃ hl : l < eps.length, t = toString (k + l) ∨ t = eps[l].bvid := by
  intro eps
  induction eps with
  | nil => intro k _ h; simp [vmKeys, buildVideoMap] at h
  | cons e rest ih =>
    intro k h0 h
    have he : e.bvid ≠ "" := h0 e (by simp)
    rw [vmKeys_cons e rest k he] at h
    rcases List.mem_cons.mp h with h | h
    · exact ⟨0, by simp, Or.inl (by simpa using h)⟩
    · rcases List.mem_cons.mp h with h | h
      · exact ⟨0, by simp, Or.inr (by simpa using h)⟩
      · obtain ⟨l, hl, hcase⟩ := ih (k + 1) (fun x hx => h0 x (by simp [hx])) h
        refine ⟨l + 1, by simpa using hl, ?_⟩
        rcases hcase with hc | hc
        · left
          rw [hc]
          congr 1
          omega
        · right
          simpa using hc

/-- `video_map` keys of an appended episode list. -/
theorem vmKeys_append (ys : List Episode) :
    ∀ (xs : List Episode) (k : Nat), (∀ e ∈ xs, e.bvid ≠ "") →
      vmKeys (xs ++ ys) k = vmKeys xs k ++ vmKeys ys (k + xs.length) := by
  intro xs
  induction xs with
  | nil => intro k _; simp [vmKeys, buildVideoMap]
  | cons e rest ih =>
    intro k h0
    have he : e.bvid ≠ "" := h0 e (by simp)
    rw [List.cons_append, vmKeys_cons _ _ _ he, vmKeys_cons _ _ _ he,
      ih (k + 1) (fun x hx => h0 x (by simp [hx]))]
    have harith : k + 1 + rest.length = k + (rest.length + 1) := by omega
    simp [harith]

/-- If episode `j` binds key `t` and no later episode binds it, the lookup
resolves to episode `j`. -/
theorem lastOwner_at (eps : List Episode) (j : Nat) (hj : j < eps.length) (t : String)
    (hhit : t = eps[j].bvid ∨ t = toString (j + 1))
    (hnone : lastOwner (eps.drop (j + 1)) (j + 2) t = none) :
    lastOwner eps 1 t = some eps[j] := by
  conv_lhs => rw [← List.take_append_drop j eps]
  rw [lastOwner_append]
  have hlen : (eps.take j).length = j := by
    rw [List.length_take]
    omega
  rw [hlen]
  rw [List.drop_eq_getElem_cons hj]
  have h1j : 1 + j = j + 1 := by omega
  rw [h1j]
  simp only [lastOwner]
  have h2j : j + 1 + 1 = j + 2 := by omega
  rw [h2j, hnone, if_pos hhit]

/-- No episode at or after position `m + 1` binds the key `t`, so the
suffix of the map built from the episodes after `m` has no last owner of
`t`. -/
theorem lastOwner_drop_eq_none (eps : List Episode) (m : Nat) (t : String)
    (h0 : ∀ e ∈ eps, e.bvid ≠ "")
    (hb : ∀ l (hl : l < eps.length), m + 1 ≤ l → eps[l].bvid ≠ t)
    (hp : ∀ l, l < eps.length → m + 1 ≤ l → toString (l + 1) ≠ t) :
    lastOwner (eps.drop (m + 1)) (m + 2) t = none := by
  refine lastOwner_eq_none t (eps.drop (m + 1)) (m + 2)
    (fun e he => h0 e (List.drop_subset _ _ he)) ?_
  intro hmem
  obtain ⟨l, hl, hcase⟩ := mem_vmKeys t (eps.drop (m + 1)) (m + 2)
    (fun e he => h0 e (List.drop_subset _ _ he)) hmem
  have hlen : (eps.drop (m + 1)).length = eps.length - (m + 1) := List.length_drop _ _
  have hl2 : m + 1 + l < eps.length := by omega
  rcases hcase with hc | hc
  · have hpos : toString (m + 1 + l + 1) = t := by
      rw [hc]
      congr 1
      omega
    exact hp (m + 1 + l) hl2 (by omega) hpos
  · have hgd : (eps.drop (m + 1))[l] = eps[m + 1 + l] := by
      simp [List.getElem_drop]
    have hbv : eps[m + 1 + l].bvid = t := by
      rw [hc, hgd]
    exact hb (m + 1 + l) hl2 (by omega) hbv

/-- C4: with selection mode ByIds (choice `'2'`), the lookup maps both
the 1-based global position (as a decimal string) and the `bvid` of every
episode to that episode (stated under key distinctness — the collision
case is the subject of the companion collision theorem); the selection
takes, for each operator token in order, the matching episode when the
token is a key and silently drops unrecognized tokens without
deduplicating; and the ledger is never consulted (the result does not
depend on the filesystem). -/
theorem processCollection_byIds_spec (fs : FS) (data : CollectionData) (line : String)
    (h0 : ∀ e ∈ flatEpisodes data.sections, e.bvid ≠ "")
    (hnd : (vmKeys (flatEpisodes data.sections) 1).Nodup) :
    (∀ j (hj : j < (flatEpisodes data.sections).length),
      dictGet (buildVideoMap (flatEpisodes data.sections) 1) (toString (j + 1))
        = some (toInfo (flatEpisodes data.sections)[j]) ∧
      dictGet (buildVideoMap (flatEpisodes data.sections) 1)
          ((flatEpisodes data.sections)[j]).bvid
        = some (toInfo (flatEpisodes data.sections)[j])) ∧
    (processCollection fs data "2" line).selected
      = (tokenize line).filterMap
          (fun t => dictGet (buildVideoMap (flatEpisodes data.sections) 1) t) ∧
    (∀ fs' : FS, (processCollection fs' data "2" line).selected
      = (processCollection fs data "2" line).selected) := by
  refine ⟨?_, ?_, ?_⟩
  · intro j hj
    have htake : ∀ e ∈ (flatEpisodes data.sections).take j, e.bvid ≠ "" :=
      fun e he => h0 e (List.take_subset _ _ he)
    have hsplit := vmKeys_append ((flatEpisodes data.sections).drop j)
      ((flatEpisodes data.sections).take j) 1 htake
    rw [List.take_append_drop] at hsplit
    have hlen : ((flatEpisodes data.sections).take j).length = j := by
      rw [List.length_take]
      omega
    rw [hlen] at hsplit
    have h1j : 1 + j = j + 1 := by omega
    rw [h1j] at hsplit
    have hdropj : (flatEpisodes data.sections).drop j
        = (flatEpisodes data.sections)[j] :: (flatEpisodes data.sections).drop (j + 1) :=
      List.drop_eq_getElem_cons hj
    have hbj : ((flatEpisodes data.sections)[j]).bvid ≠ "" :=
      h0 _ (List.getElem_mem hj)
    have hkeys : vmKeys ((flatEpisodes data.sections).drop j) (j + 1)
        = toString (j + 1) :: ((flatEpisodes data.sections)[j]).bvid
            :: vmKeys ((flatEpisodes data.sections).drop (j + 1)) (j + 2) := by
      rw [hdropj, vmKeys_cons _ _ _ hbj]
    rw [hkeys] at hsplit
    rw [hsplit] at hnd
    have hnd2 := (List.nodup_append.mp hnd).2.1
    have hx := List.nodup_cons.mp hnd2
    have hy := List.nodup_cons.mp hx.2
    have ht1 : toString (j + 1)
        ∉ vmKeys ((flatEpisodes data.sections).drop (j + 1)) (j + 2) :=
      fun hmem => hx.1 (List.mem_cons_of_mem _ hmem)
    have hb1 : ((flatEpisodes data.sections)[j]).bvid
        ∉ vmKeys ((flatEpisodes data.sections).drop (j + 1)) (j + 2) := hy.1
    have hdrop0 : ∀ e ∈ (flatEpisodes data.sections).drop (j + 1), e.bvid ≠ "" :=
      fun e he => h0 e (List.drop_subset _ _ he)
    constructor
    · rw [dictGet_eq_lastOwner _ _ _ h0,
        lastOwner_at _ j hj _ (Or.inr rfl) (lastOwner_eq_none _ _ _ hdrop0 ht1)]
      rfl
    · rw [dictGet_eq_lastOwner _ _ _ h0,
        lastOwner_at _ j hj _ (Or.inl rfl) (lastOwner_eq_none _ _ _ hdrop0 hb1)]
      rfl
  · simp [processCollection, selectVideos, selectByIds]
  · intro fs'
    simp [processCollection, selectVideos]

/-- Witness for C4: the sample collection (distinct keys), with tokens
`1,BVbbb` naming episode 1 by position and episode 2 by `bvid`. -/
theorem processCollection_byIds_spec_witness :
    ((∀ e ∈ flatEpisodes sampleData.sections, e.bvid ≠ "") ∧
      (vmKeys (flatEpisodes sampleData.sections) 1).Nodup) ∧
    ((∀ j (hj : j < (flatEpisodes sampleData.sections).length),
      dictGet (buildVideoMap (flatEpisodes sampleData.sections) 1) (toString (j + 1))
        = some (toInfo (flatEpisodes sampleData.sections)[j]) ∧
      dictGet (buildVideoMap (flatEpisodes sampleData.sections) 1)
          ((flatEpisodes sampleData.sections)[j]).bvid
        = some (toInfo (flatEpisodes sampleData.sections)[j])) ∧
    (processCollection sampleFS sampleData "2" "1,BVbbb").selected
      = (tokenize "1,BVbbb").filterMap
          (fun t => dictGet (buildVideoMap (flatEpisodes sampleData.sections) 1) t) ∧
    (∀ fs' : FS, (processCollection fs' sampleData "2" "1,BVbbb").selected
      = (processCollection sampleFS sampleData "2" "1,BVbbb").selected)) :=
  ⟨⟨by decide, by decide⟩,
   processCollection_byIds_spec sampleFS sampleData "1,BVbbb" (by decide) (by decide)⟩

/-- C9: when some episode's `bvid` equals the decimal positional key of a
different episode, the two `video_map` keys collide and a token equal to
that string resolves to the episode whose binding was inserted last
during construction — the episode with the larger position — and not to
the other owner of the key: positional and `bvid` addressing are not
always interchangeable. -/
theorem byIds_positional_key_collision (eps : List Episode) (i j : Nat)
    (hi : i < eps.length) (hj : j < eps.length) (hij : i ≠ j)
    (h0 : ∀ e ∈ eps, e.bvid ≠ "")
    (hcol : eps[i].bvid = toString (j + 1))
    (hub : ∀ l (hl : l < eps.length), l ≠ i → eps[l].bvid ≠ toString (j + 1))
    (hup : ∀ l, l < eps.length → l ≠ j → toString (l + 1) ≠ toString (j + 1)) :
    dictGet (buildVideoMap eps 1) (toString (j + 1))
      = some (toInfo (eps.get ⟨max i j, by omega⟩)) ∧
    dictGet (buildVideoMap eps 1) (toString (j + 1))
      ≠ some (toInfo (eps.get ⟨min i j, by omega⟩)) := by
  have hjbvid : eps[j].bvid ≠ toString (j + 1) := hub j hj (fun h => hij h.symm)
  rcases Nat.lt_or_ge i j with hlt | hge
  · have hmax : max i j = j := Nat.max_eq_right (Nat.le_of_lt hlt)
    have hmin : min i j = i := Nat.min_eq_left (Nat.le_of_lt hlt)
    have hnone : lastOwner (eps.drop (j + 1)) (j + 2) (toString (j + 1)) = none := by
      refine lastOwner_drop_eq_none eps j _ h0 ?_ ?_
      · intro l hl hge'
        exact hub l hl (by omega)
      · intro l hl hge'
        exact hup l hl (by omega)
    have hmain : dictGet (buildVideoMap eps 1) (toString (j + 1))
        = some (toInfo eps[j]) := by
      rw [dictGet_eq_lastOwner _ _ _ h0, lastOwner_at eps j hj _ (Or.inr rfl) hnone]
      rfl
    constructor
    · rw [hmain]
      simp [hmax, List.get_eq_getElem]
    · rw [hmain]
      intro hcontra
      have hb := congrArg VideoInfo.bvid (Option.some.inj hcontra)
      simp [toInfo, hmin, List.get_eq_getElem] at hb
      rw [hcol] at hb
      exact hjbvid hb
  · have hlt' : j < i := by omega
    have hmax : max i j = i := Nat.max_eq_left (Nat.le_of_lt hlt')
    have hmin : min i j = j := Nat.min_eq_right (Nat.le_of_lt hlt')
    have hnone : lastOwner (eps.drop (i + 1)) (i + 2) (toString (j + 1)) = none := by
      refine lastOwner_drop_eq_none eps i _ h0 ?_ ?_
      · intro l hl hge'
        exact hub l hl (by omega)
      · intro l hl hge'
        exact hup l hl (by omega)
    have hmain : dictGet (buildVideoMap eps 1) (toString (j + 1))
        = some (toInfo eps[i]) := by
      rw [dictGet_eq_lastOwner _ _ _ h0, lastOwner_at eps i hi _ (Or.inl hcol.symm) hnone]
      rfl
    constructor
    · rw [hmain]
      simp [hmax, List.get_eq_getElem]
    · rw [hmain]
      intro hcontra
      have hb := congrArg VideoInfo.bvid (Option.some.inj hcontra)
      simp [toInfo, hmin, List.get_eq_getElem] at hb
      rw [hcol] at hb
      exact hjbvid hb.symm

/-- Witness for C9: in `collideEps`, episode 1's `bvid` `"2"` collides
with the positional key of episode 2; the token `"2"` resolves to episode
2 (inserted last), not to episode 1. -/
theorem byIds_positional_key_collision_witness :
    ((0 : Nat) < collideEps.length ∧ (1 : Nat) < collideEps.length ∧ (0 : Nat) ≠ 1 ∧
      (∀ e ∈ collideEps, e.bvid ≠ "") ∧
      (collideEps.get ⟨0, by decide⟩).bvid = toString (1 + 1) ∧
      (∀ l (hl : l < collideEps.length), l ≠ 0 → collideEps[l].bvid ≠ toString (1 + 1)) ∧
      (∀ l, l < collideEps.length → l ≠ 1 → toString (l + 1) ≠ toString (1 + 1))) ∧
    (dictGet (buildVideoMap collideEps 1) (toString (1 + 1))
        = some (toInfo (collideEps.get ⟨max 0 1, by decide⟩)) ∧
      dictGet (buildVideoMap collideEps 1) (toString (1 + 1))
        ≠ some (toInfo (collideEps.get ⟨min 0 1, by decide⟩))) :=
  ⟨⟨by decide, by decide, by decide, by decide, by decide, by decide, by decide⟩,
   byIds_positional_key_collision collideEps 0 1 (by decide) (by decide) (by decide)
     (by decide) (by decide) (by decide) (by decide)⟩
